import Mathlib

/-!
# A verification of the SlidingPuzzle game core

Shallow embedding of the puzzle state machine of the SlidingPuzzle
repository: the `Position`/`Direction` primitives (`sliding_puzzle/utils.py`),
the `Grid` container (`sliding_puzzle/grid.py`) and the `GameEngine` movement,
win-detection and shuffle logic (`sliding_puzzle/game_engine.py`).

Modelling conventions:
* Tiles (`Block` objects) carry no `__eq__`, so Python's `==` on them is
  object identity; we model a tile by an identity `BlockId` and keep each
  tile's mutable `position` attribute in a heap `pos : BlockId → Position`
  stored alongside the grid sequence.
* Python sequence indexing is modelled by `pyResolveIndex`, which performs the
  real resolution: a nonnegative in-range index is used directly, a negative
  index in `[-len, 0)` wraps to `len + i`, and anything else raises
  `IndexError`, modelled by `none`.
* Methods that can raise (`list.index` inside `Grid.get_position`, sequence
  indexing inside `Grid.swap` and `Grid.__call__`) return `Option`.
* In `Grid.get_position` the source computes
  `int(index / (len(self.grid) / self.grid_width))`; the float quotient is
  modelled by exact arithmetic, `⌊index · width / len⌋`.
-/

namespace SlidingPuzzle

/-- `utils.Position`: a pair of ints with componentwise vector addition
(`__add__`). -/
structure Position where
  x : Int
  y : Int
deriving DecidableEq

instance : Add Position where
  add p q := ⟨p.x + q.x, p.y + q.y⟩

/-- `utils.Direction`: four-way direction enumeration. -/
inductive Direction where
  | LEFT
  | RIGHT
  | UP
  | DOWN
deriving DecidableEq

/-- A tile (`Block` object) is modelled by its identity. -/
abbrev BlockId := Nat

/-- Python sequence index resolution: a nonnegative index below the length is
used as is, a negative index in `[-len, 0)` wraps around to `len + i`, and any
other index raises `IndexError` (modelled by `none`). -/
def pyResolveIndex (len : Nat) (i : Int) : Option Nat :=
  if 0 ≤ i ∧ i < (len : Int) then some i.toNat
  else if -(len : Int) ≤ i ∧ i < 0 then some ((len : Int) + i).toNat
  else none

/-- `grid.Grid`: the stored width, the sequence of tile references, and the
heap of the tiles' mutable `position` attributes (an attribute lives on the
tile object; the grid reaches it through the reference). -/
structure Grid where
  grid_width : Nat
  grid : List BlockId
  pos : BlockId → Position

namespace Grid

/-- `Grid._to_index`: `position.y * self.grid_width + position.x`. -/
def to_index (g : Grid) (position : Position) : Int :=
  position.y * (g.grid_width : Int) + position.x

/-- `Grid.__call__`: `self.grid[position.y * self.grid_width + position.x]`. -/
def call (g : Grid) (position : Position) : Option BlockId := do
  let i ← pyResolveIndex g.grid.length (g.to_index position)
  some (g.grid.getD i 0)

/-- `Grid.get_position`: `index = self.grid.index(object)` (first match,
raises `ValueError` when absent), then
`Position(index % self.grid_width, int(index / (len(self.grid) / self.grid_width)))`
with the float quotient modelled exactly. -/
def get_position (g : Grid) (object : BlockId) : Option Position := do
  let index ← g.grid.findIdx? (fun o => o == object)
  some ⟨((index % g.grid_width : Nat) : Int),
        ((index * g.grid_width / g.grid.length : Nat) : Int)⟩

/-- `Grid.swap`: swaps the two sequence entries, then swaps the two tiles'
`position` attributes.  The sequence part reads both tiles before writing; the
attribute part then reads the already-swapped sequence, so the attribute
exchange is between the same two tiles. -/
def swap (g : Grid) (lhs rhs : Position) : Option Grid := do
  let i ← pyResolveIndex g.grid.length (g.to_index lhs)
  let j ← pyResolveIndex g.grid.length (g.to_index rhs)
  let a := g.grid.getD i 0
  let b := g.grid.getD j 0
  some { g with
    grid := (g.grid.set i b).set j a
    pos := Function.update (Function.update g.pos b (g.pos a)) a (g.pos b) }

end Grid

/-- `GameEngine.direction_to_offset`: the fixed four-entry class-level table. -/
def direction_to_offset : Direction → Position
  | .DOWN => ⟨0, -1⟩
  | .UP => ⟨0, 1⟩
  | .LEFT => ⟨1, 0⟩
  | .RIGHT => ⟨-1, 0⟩

/-- `game_engine.GameEngine` state: board size, the grid, the reference to the
blank tile, the solved-order snapshot `correct_order`, and the `_allow_moving`
gate.  The presentation-layer fields (`game_data`, the enter/escape input
latches) do not take part in grid logic and are omitted. -/
structure GameEngine where
  size : Nat
  grid : Grid
  blank_block : BlockId
  correct_order : List BlockId
  allow_moving : Bool

namespace GameEngine

/-- `GameEngine.__init__`: builds the grid from `[blank_block] + blocks`,
takes `self.grid.grid[0]` as the blank reference, snapshots
`self.grid.grid[:]` into `correct_order`, and starts with moving disallowed.
`pos0` is the heap of initial tile `position` attributes. -/
def init (num_of_blocks_in_line : Nat) (blank_block : BlockId)
    (blocks : List BlockId) (pos0 : BlockId → Position) : GameEngine :=
  let grid : Grid :=
    { grid_width := num_of_blocks_in_line
      grid := blank_block :: blocks
      pos := pos0 }
  { size := num_of_blocks_in_line
    grid := grid
    blank_block := grid.grid.headD 0
    correct_order := grid.grid
    allow_moving := false }

/-- `self._allow_moving = True` as executed by `run` just before shuffling. -/
def allow_moves (e : GameEngine) : GameEngine :=
  { e with allow_moving := true }

/-- `GameEngine._is_solved`: `self.correct_order == self.grid.grid`; with no
`__eq__` on tiles, Python list equality is per-index identity equality. -/
def is_solved (e : GameEngine) : Bool :=
  decide (e.correct_order = e.grid.grid)

/-- `GameEngine._is_valid_position`. -/
def is_valid_position (e : GameEngine) (blank_position : Position) : Bool :=
  decide (0 ≤ blank_position.x ∧ blank_position.x < (e.size : Int) ∧
          0 ≤ blank_position.y ∧ blank_position.y < (e.size : Int))

/-- One of the four `if direction == ...` statements of
`GameEngine._move_blank_block`: when the direction matches, swap the blank
with the tile at the blank's position plus the branch's literal offset. -/
def swap_branch (e : GameEngine) (direction target : Direction)
    (offset : Position) : Option GameEngine :=
  if direction = target then do
    let p ← e.grid.get_position e.blank_block
    let g ← e.grid.swap p (p + offset)
    some { e with grid := g }
  else some e

/-- `GameEngine._move_blank_block`: bounds check on the blank's position plus
the table offset, then the `_allow_moving` gate, then the four sequential
direction branches with their literal offsets. -/
def move_blank_block (e : GameEngine) (direction : Direction) :
    Option GameEngine := do
  let bp ← e.grid.get_position e.blank_block
  if !e.is_valid_position (bp + direction_to_offset direction) then
    return e
  else if !e.allow_moving then
    return e
  else
    let e1 ← e.swap_branch direction .DOWN ⟨0, -1⟩
    let e2 ← e1.swap_branch direction .UP ⟨0, 1⟩
    let e3 ← e2.swap_branch direction .LEFT ⟨1, 0⟩
    let e4 ← e3.swap_branch direction .RIGHT ⟨-1, 0⟩
    return e4

/-- Companion definition following the specification's words for
`moveBlank`: compute the candidate once from the direction-to-offset table,
bounds-check it, check the gate, and swap the blank against that very
candidate.  Used to state that the bounds check and the swap use consistent
offsets. -/
def move_blank_block_spec (e : GameEngine) (direction : Direction) :
    Option GameEngine := do
  let bp ← e.grid.get_position e.blank_block
  if !e.is_valid_position (bp + direction_to_offset direction) then
    return e
  else if !e.allow_moving then
    return e
  else
    let g ← e.grid.swap bp (bp + direction_to_offset direction)
    return { e with grid := g }

end GameEngine

/-- The local `move_list` of `GameEngine._shuffle_board`:
`3 * [DOWN] + 3 * [RIGHT] + 2 * [LEFT] + 2 * [UP]`. -/
def move_list : List Direction :=
  List.replicate 3 .DOWN ++ List.replicate 3 .RIGHT ++
    List.replicate 2 .LEFT ++ List.replicate 2 .UP

namespace GameEngine

/-- The `for _ in range(2000)` loop of `_shuffle_board`:
`k` is the iteration counter feeding the random source, `c` the remaining
iterations; `rand k` is the index `random.choice` picks on iteration `k`. -/
def shuffleLoop (rand : Nat → Fin 10) : GameEngine → Nat → Nat → Option GameEngine
  | e, _, 0 => some e
  | e, k, Nat.succ c => do
    let e' ← e.move_blank_block (move_list.getD (rand k) Direction.DOWN)
    shuffleLoop rand e' (k + 1) c

/-- `GameEngine._shuffle_board`, parametrised by the outcomes of the 2000
`random.choice(move_list)` calls. -/
def shuffle_board (e : GameEngine) (rand : Nat → Fin 10) : Option GameEngine :=
  shuffleLoop rand e 0 2000

/-- Applying `_move_blank_block` to each direction of a list in order. -/
def applyMoves (e : GameEngine) (ds : List Direction) : Option GameEngine :=
  ds.foldlM move_blank_block e

/-- Total version of `move_blank_block` (they agree on every well-formed
state, where no exception can occur). -/
def moveT (e : GameEngine) (d : Direction) : GameEngine :=
  (e.move_blank_block d).getD e

/-- Total version of `applyMoves`. -/
def applyMovesT (e : GameEngine) (ds : List Direction) : GameEngine :=
  ds.foldl moveT e

/-- A call of `_move_blank_block e d` is effective (actually swaps) iff the
gate is open and the candidate neighbour of the blank is on the board. -/
def isEffective (e : GameEngine) (d : Direction) : Bool :=
  e.allow_moving &&
    (match e.grid.get_position e.blank_block with
     | some bp => e.is_valid_position (bp + direction_to_offset d)
     | none => false)

/-- The effective moves of a direction sequence, in order. -/
def effectiveMoves : GameEngine → List Direction → List Direction
  | _, [] => []
  | e, d :: ds =>
    if e.isEffective d then d :: effectiveMoves (e.moveT d) ds
    else effectiveMoves e ds

end GameEngine

/-- The inverse direction: undoing a blank move. -/
def inverse : Direction → Direction
  | .DOWN => .UP
  | .UP => .DOWN
  | .LEFT => .RIGHT
  | .RIGHT => .LEFT

/-- Logical position of sequence index `i` on a board of width `N`. -/
def posOfIndex (N i : Nat) : Position :=
  ⟨((i % N : Nat) : Int), ((i / N : Nat) : Int)⟩

/-- Swapping two sequence entries, as `Grid.swap` does it. -/
def listSwap (l : List BlockId) (i j : Nat) : List BlockId :=
  (l.set i (l.getD j 0)).set j (l.getD i 0)

/-- Swapping two tiles' `position` attributes, as `Grid.swap` does it. -/
def attrSwap (p : BlockId → Position) (a b : BlockId) : BlockId → Position :=
  Function.update (Function.update p b (p a)) a (p b)

/-- A legal single slide: the blank (at sequence index `i`) is exchanged with
the tile at an index `j` whose logical position is a unit-offset neighbour of
the blank's. -/
def LegalStep (N : Nat) (blank : BlockId) (l l' : List BlockId) : Prop :=
  ∃ i j d, i < l.length ∧ j < l.length ∧ l.getD i 0 = blank ∧
    posOfIndex N j = posOfIndex N i + direction_to_offset d ∧
    l' = listSwap l i j

/-- Well-formedness of an engine state: positive board size, consistent
width, `N²` tiles, distinct tile identities, blank present. -/
def WF (e : GameEngine) : Prop :=
  0 < e.size ∧ e.grid.grid_width = e.size ∧
    e.grid.grid.length = e.size * e.size ∧
    e.grid.grid.Nodup ∧ e.blank_block ∈ e.grid.grid

/-- A position inside the square board of a grid (the spec's
"0 ≤ x,y < width" constraint on `Grid` lookups). -/
def Grid.in_range (g : Grid) (p : Position) : Prop :=
  0 ≤ p.x ∧ p.x < (g.grid_width : Int) ∧ 0 ≤ p.y ∧ p.y < (g.grid_width : Int)

/-- A candidate position outside `[0, N)` in BOTH axes — the literal wording
of the claimed no-op condition. -/
def outside_both (e : GameEngine) (p : Position) : Prop :=
  (p.x < 0 ∨ (e.size : Int) ≤ p.x) ∧ (p.y < 0 ∨ (e.size : Int) ≤ p.y)

/-- The literal reading of the claimed `_move_blank_block` contract: a silent
no-op exactly when the candidate lies outside `[0, N)` in both axes or the
moves-allowed gate is false, and otherwise a swap of the blank with the
direction-specific neighbour. -/
def ClaimC2 : Prop :=
  ∀ (e : GameEngine) (d : Direction) (bp : Position),
    e.grid.get_position e.blank_block = some bp →
    ((outside_both e (bp + direction_to_offset d) ∨ e.allow_moving = false) →
        e.move_blank_block d = some e) ∧
    (¬ outside_both e (bp + direction_to_offset d) ∧ e.allow_moving = true →
        e.move_blank_block d =
          (e.grid.swap bp (bp + direction_to_offset d)).bind
            (fun g => some { e with grid := g }))

/-- A concrete 2×2 game (blank tile `0` at the top-left corner, tiles
`1, 2, 3`), with the moving gate already opened by `run`. -/
def e2 : GameEngine :=
  (GameEngine.init 2 0 [1, 2, 3] (fun _ => ⟨0, 0⟩)).allow_moves

/-- The grid obtained from `e2.grid` by swapping positions `(0,0)` and
`(1,0)`. -/
def g3 : Grid :=
  { grid_width := 2
    grid := [1, 0, 2, 3]
    pos := attrSwap (fun _ => ⟨0, 0⟩) 0 1 }

/-! ## List-level helper lemmas -/

theorem Position.add_def (p q : Position) : p + q = ⟨p.x + q.x, p.y + q.y⟩ := rfl

theorem getD_eq_getElem (l : List BlockId) (i : Nat) (hi : i < l.length) :
    l.getD i 0 = l[i] := by
  simp [List.getD_eq_getElem?_getD, List.getElem?_eq_getElem hi]

theorem set_getD_self (l : List BlockId) (i : Nat) : l.set i (l.getD i 0) = l := by
  induction l generalizing i with
  | nil => rfl
  | cons x t ih =>
    cases i with
    | zero => rfl
    | succ n => simpa using ih n

theorem listSwap_def (l : List BlockId) (i j : Nat) :
    listSwap l i j = (l.set i (l.getD j 0)).set j (l.getD i 0) := rfl

@[simp] theorem listSwap_length (l : List BlockId) (i j : Nat) :
    (listSwap l i j).length = l.length := by
  simp [listSwap]

theorem listSwap_same (l : List BlockId) (i : Nat) : listSwap l i i = l := by
  rw [listSwap_def, List.set_set, set_getD_self]

theorem listSwap_getD_right (l : List BlockId) (i j : Nat) (hj : j < l.length) :
    (listSwap l i j).getD j 0 = l.getD i 0 := by
  rw [getD_eq_getElem _ _ (by simpa using hj)]
  simp [listSwap]

theorem listSwap_getD_left (l : List BlockId) (i j : Nat) (hij : i ≠ j)
    (hi : i < l.length) : (listSwap l i j).getD i 0 = l.getD j 0 := by
  rw [getD_eq_getElem _ _ (by simpa using hi)]
  simp [listSwap, List.getElem_set_ne (fun h => hij h.symm),
    ← getD_eq_getElem _ _ hi]

theorem listSwap_getD (l : List BlockId) (i j k : Nat) (hi : i < l.length)
    (hj : j < l.length) (hk : k < l.length) :
    (listSwap l i j).getD k 0 =
      if k = j then l.getD i 0 else if k = i then l.getD j 0 else l.getD k 0 := by
  by_cases hkj : k = j
  · subst hkj
    rw [if_pos rfl]
    exact listSwap_getD_right l i k hk
  · by_cases hki : k = i
    · subst hki
      rw [if_neg hkj, if_pos rfl]
      exact listSwap_getD_left l k j hkj hk
    · rw [if_neg hkj, if_neg hki,
        getD_eq_getElem _ _ (by simpa using hk), getD_eq_getElem _ _ hk]
      simp only [listSwap_def]
      rw [List.getElem_set_ne (fun h => hkj h.symm),
        List.getElem_set_ne (fun h => hki h.symm)]

theorem listSwap_invol (l : List BlockId) (i j : Nat) (hi : i < l.length)
    (hj : j < l.length) : listSwap (listSwap l i j) i j = l := by
  by_cases hij : i = j
  · subst hij; rw [listSwap_same, listSwap_same]
  · have ha : (listSwap l i j).getD i 0 = l.getD j 0 := listSwap_getD_left l i j hij hi
    have hb : (listSwap l i j).getD j 0 = l.getD i 0 := listSwap_getD_right l i j hj
    apply List.ext_getElem (by simp)
    intro k hk1 hk2
    rw [← getD_eq_getElem _ _ hk1, ← getD_eq_getElem _ _ hk2,
      listSwap_getD (listSwap l i j) i j k (by simpa using hi) (by simpa using hj)
        (by simpa using hk2), ha, hb]
    by_cases hkj : k = j
    · subst hkj; rw [if_pos rfl]
    · by_cases hki : k = i
      · subst hki; rw [if_neg hkj, if_pos rfl]
      · rw [if_neg hkj, if_neg hki,
          listSwap_getD l i j k hi hj hk2, if_neg hkj, if_neg hki]

theorem listSwap_undo (l : List BlockId) (i j : Nat) (hi : i < l.length)
    (hj : j < l.length) : listSwap (listSwap l i j) j i = l := by
  by_cases hij : i = j
  · subst hij; rw [listSwap_same, listSwap_same]
  · have ha : (listSwap l i j).getD i 0 = l.getD j 0 := listSwap_getD_left l i j hij hi
    have hb : (listSwap l i j).getD j 0 = l.getD i 0 := listSwap_getD_right l i j hj
    apply List.ext_getElem (by simp)
    intro k hk1 hk2
    rw [← getD_eq_getElem _ _ hk1, ← getD_eq_getElem _ _ hk2,
      listSwap_getD (listSwap l i j) j i k (by simpa using hj) (by simpa using hi)
        (by simpa using hk2), ha, hb]
    by_cases hki : k = i
    · subst hki; rw [if_pos rfl]
    · by_cases hkj : k = j
      · subst hkj; rw [if_neg hki, if_pos rfl]
      · rw [if_neg hki, if_neg hkj,
          listSwap_getD l i j k hi hj hk2, if_neg hkj, if_neg hki]

theorem listSwap_perm (l : List BlockId) (i j : Nat) (hi : i < l.length)
    (hj : j < l.length) : (listSwap l i j).Perm l := by
  by_cases hij : i = j
  · subst hij; rw [listSwap_same]
  · rw [List.perm_iff_count]
    intro x
    have hi1 : i < (l.set i (l.getD j 0)).length := by simpa using hi
    have hj1 : j < (l.set i (l.getD j 0)).length := by simpa using hj
    have hcmem : (if l[i] = x then 1 else 0) ≤ l.count x := by
      by_cases hx : l[i] = x
      · subst hx
        simpa using List.count_pos_iff.mpr (l.getElem_mem hi)
      · simp [hx]
    rw [listSwap_def, List.count_set _ _ _ _ hj1, List.count_set _ _ _ _ hi]
    simp only [List.getElem_set_ne hij, getD_eq_getElem _ _ hi,
      getD_eq_getElem _ _ hj, beq_iff_eq]
    split_ifs at hcmem ⊢ <;> omega

theorem listSwap_nodup (l : List BlockId) (i j : Nat) (hi : i < l.length)
    (hj : j < l.length) (h : l.Nodup) : (listSwap l i j).Nodup :=
  (listSwap_perm l i j hi hj).symm.nodup h

theorem listSwap_mem (l : List BlockId) (i j : Nat) (hi : i < l.length)
    (hj : j < l.length) (b : BlockId) (h : b ∈ l) : b ∈ listSwap l i j :=
  ((listSwap_perm l i j hi hj).mem_iff).mpr h

/-! ## attrSwap lemmas -/

theorem attrSwap_apply_left (p : BlockId → Position) (a b : BlockId) :
    attrSwap p a b a = p b := by
  simp [attrSwap]

theorem attrSwap_apply_right (p : BlockId → Position) (a b : BlockId) :
    attrSwap p a b b = p a := by
  by_cases hab : a = b
  · subst hab; simp [attrSwap]
  · simp [attrSwap, Function.update_noteq (fun h => hab h.symm)]

theorem attrSwap_apply_other (p : BlockId → Position) (a b x : BlockId)
    (hxa : x ≠ a) (hxb : x ≠ b) : attrSwap p a b x = p x := by
  simp [attrSwap, Function.update_noteq hxa, Function.update_noteq hxb]

theorem attrSwap_invol (p : BlockId → Position) (a b : BlockId) :
    attrSwap (attrSwap p a b) a b = p := by
  funext x
  by_cases hxa : x = a
  · subst hxa
    rw [attrSwap_apply_left, attrSwap_apply_right]
  · by_cases hxb : x = b
    · subst hxb
      rw [attrSwap_apply_right, attrSwap_apply_left]
    · rw [attrSwap_apply_other _ _ _ _ hxa hxb, attrSwap_apply_other _ _ _ _ hxa hxb]

theorem attrSwap_comm (p : BlockId → Position) (a b : BlockId) :
    attrSwap p a b = attrSwap p b a := by
  funext x
  by_cases hxa : x = a
  · subst hxa; rw [attrSwap_apply_left, attrSwap_apply_right]
  · by_cases hxb : x = b
    · subst hxb; rw [attrSwap_apply_right, attrSwap_apply_left]
    · rw [attrSwap_apply_other _ _ _ _ hxa hxb, attrSwap_apply_other _ _ _ _ hxb hxa]

/-! ## pyResolveIndex lemmas -/

theorem pyResolveIndex_nat (len : Nat) (i : Nat) (h : i < len) :
    pyResolveIndex len (i : Int) = some i := by
  simp [pyResolveIndex, h]

theorem pyResolveIndex_lt (len : Nat) (t : Int) (k : Nat)
    (h : pyResolveIndex len t = some k) : k < len := by
  unfold pyResolveIndex at h
  split at h
  · rename_i h1
    cases h
    omega
  · split at h
    · rename_i h1 h2
      cases h
      omega
    · cases h

/-! ## findIdx? helper lemmas -/

theorem findIdx?_beq_of_nodup (l : List BlockId) (b : BlockId) (i : Nat)
    (hnd : l.Nodup) (hi : i < l.length) (hb : l.getD i 0 = b) :
    l.findIdx? (fun o => o == b) = some i := by
  rw [List.findIdx?_eq_some_iff_getElem]
  rw [getD_eq_getElem _ _ hi] at hb
  refine ⟨hi, by simp [hb], fun k hki => ?_⟩
  have hk : k < l.length := Nat.lt_trans hki hi
  simp only [beq_iff_eq, Bool.not_eq_true, decide_eq_false_iff_not]
  intro hkb
  have hfin : (⟨k, hk⟩ : Fin l.length) = ⟨i, hi⟩ :=
    List.nodup_iff_injective_getElem.mp hnd (by simpa using hkb.trans hb.symm)
  have : k = i := congrArg Fin.val hfin
  omega

theorem findIdx?_beq_eq_none_iff (l : List BlockId) (b : BlockId) :
    l.findIdx? (fun o => o == b) = none ↔ b ∉ l := by
  rw [List.findIdx?_eq_none_iff]
  constructor
  · intro h hb
    simpa using h b hb
  · intro h x hx
    simp only [beq_eq_false_iff_ne, ne_eq]
    exact fun hxb => h (hxb ▸ hx)

theorem findIdx?_beq_spec (l : List BlockId) (b : BlockId) (i : Nat)
    (h : l.findIdx? (fun o => o == b) = some i) :
    i < l.length ∧ l.getD i 0 = b := by
  rw [List.findIdx?_eq_some_iff_getElem] at h
  obtain ⟨hi, hb, -⟩ := h
  exact ⟨hi, by rw [getD_eq_getElem _ _ hi]; simpa using hb⟩

/-! ## Grid operation characterizations -/

namespace Grid

/-- Index arithmetic of `get_position`: for a full square grid, the source's
`int(index / (len/width))` is `index / width`. -/
theorem get_position_eq (g : Grid) (N : Nat) (b : BlockId) (i : Nat)
    (hN : 0 < N) (hw : g.grid_width = N) (hlen : g.grid.length = N * N)
    (hnd : g.grid.Nodup) (hi : i < g.grid.length) (hb : g.grid.getD i 0 = b) :
    g.get_position b = some (posOfIndex N i) := by
  unfold get_position
  rw [findIdx?_beq_of_nodup _ _ _ hnd hi hb]
  simp only [Option.bind_eq_bind, Option.some_bind, Option.some.injEq]
  rw [hw, hlen]
  have : i * N / (N * N) = i / N := by
    rw [Nat.mul_comm N N, Nat.mul_div_mul_right _ _ hN]
  rw [this]
  rfl

theorem get_position_eq_none_iff (g : Grid) (b : BlockId) :
    g.get_position b = none ↔ b ∉ g.grid := by
  unfold get_position
  rw [← findIdx?_beq_eq_none_iff]
  cases h : g.grid.findIdx? (fun o => o == b) <;> simp [h]

/-- `to_index` inverts `posOfIndex` on a full square grid. -/
theorem to_index_posOfIndex (g : Grid) (N i : Nat) (hw : g.grid_width = N) :
    g.to_index (posOfIndex N i) = ((N * (i / N) + i % N : Nat) : Int) := by
  unfold to_index posOfIndex
  rw [hw]
  push_cast
  ring

theorem to_index_posOfIndex_self (g : Grid) (N i : Nat) (hw : g.grid_width = N) :
    g.to_index (posOfIndex N i) = (i : Int) := by
  rw [to_index_posOfIndex g N i hw, Nat.div_add_mod]

/-- `Grid.swap` at positions whose indices resolve in range. -/
theorem swap_eq (g : Grid) (lhs rhs : Position) (i j : Nat)
    (hi : g.to_index lhs = (i : Int)) (hj : g.to_index rhs = (j : Int))
    (hil : i < g.grid.length) (hjl : j < g.grid.length) :
    g.swap lhs rhs = some { g with
      grid := listSwap g.grid i j
      pos := attrSwap g.pos (g.grid.getD i 0) (g.grid.getD j 0) } := by
  unfold swap
  rw [hi, hj, pyResolveIndex_nat _ _ hil, pyResolveIndex_nat _ _ hjl]
  rfl

/-- `Grid.__call__` at a position whose index resolves in range. -/
theorem call_eq (g : Grid) (p : Position) (i : Nat)
    (hi : g.to_index p = (i : Int)) (hil : i < g.grid.length) :
    g.call p = some (g.grid.getD i 0) := by
  unfold call
  rw [hi, pyResolveIndex_nat _ _ hil]
  rfl

end Grid

/-! ## posOfIndex and validity lemmas -/

theorem posOfIndex_inj (N a b : Nat) (h : posOfIndex N a = posOfIndex N b) : a = b := by
  unfold posOfIndex at h
  have h1 : ((a % N : Nat) : Int) = ((b % N : Nat) : Int) := congrArg Position.x h
  have h2 : ((a / N : Nat) : Int) = ((b / N : Nat) : Int) := congrArg Position.y h
  have h1' : a % N = b % N := by exact_mod_cast h1
  have h2' : a / N = b / N := by exact_mod_cast h2
  calc a = N * (a / N) + a % N := (Nat.div_add_mod a N).symm
    _ = N * (b / N) + b % N := by rw [h1', h2']
    _ = b := Nat.div_add_mod b N

namespace GameEngine

theorem is_valid_posOfIndex (e : GameEngine) (i : Nat) (hN : 0 < e.size)
    (hi : i < e.size * e.size) : e.is_valid_position (posOfIndex e.size i) = true := by
  have h1 : i % e.size < e.size := Nat.mod_lt _ hN
  have h2 : i / e.size < e.size := Nat.div_lt_iff_lt_mul hN |>.mpr hi
  simp only [is_valid_position, posOfIndex, decide_eq_true_eq]
  refine ⟨by positivity, by exact_mod_cast h1, by positivity, by exact_mod_cast h2⟩

/-- A position passing the bounds check has an in-range index, and
`posOfIndex` recovers the position from it. -/
theorem to_index_spec_of_valid (e : GameEngine) (p : Position)
    (hw : e.grid.grid_width = e.size) (hlen : e.grid.grid.length = e.size * e.size)
    (hv : e.is_valid_position p = true) :
    ∃ j : Nat, e.grid.to_index p = (j : Int) ∧ j < e.grid.grid.length ∧
      posOfIndex e.size j = p := by
  obtain ⟨x, y⟩ := p
  simp only [is_valid_position, decide_eq_true_eq] at hv
  obtain ⟨hx0, hxN, hy0, hyN⟩ := hv
  have hN : 0 < e.size := by
    rcases Nat.eq_zero_or_pos e.size with h | h
    · rw [h] at hxN; omega
    · exact h
  refine ⟨x.toNat + y.toNat * e.size, ?_, ?_, ?_⟩
  · unfold Grid.to_index
    rw [hw]
    push_cast [Int.toNat_of_nonneg hx0, Int.toNat_of_nonneg hy0]
    ring
  · have hx : x.toNat < e.size := by omega
    have hy : y.toNat < e.size := by omega
    rw [hlen]
    have h1 : x.toNat + y.toNat * e.size < (y.toNat + 1) * e.size := by
      rw [Nat.add_mul]
      omega
    have h2 : (y.toNat + 1) * e.size ≤ e.size * e.size :=
      Nat.mul_le_mul_right e.size hy
    omega
  · have hx : x.toNat < e.size := by omega
    unfold posOfIndex
    rw [Nat.add_mul_mod_self_right, Nat.mod_eq_of_lt hx,
      Nat.add_mul_div_right _ _ hN, Nat.div_eq_of_lt hx]
    simp only [Position.mk.injEq]
    constructor <;> omega

/-! ## Characterization of `move_blank_block` -/

theorem swap_branch_neq (e : GameEngine) (d t : Direction) (off : Position)
    (h : d ≠ t) : e.swap_branch d t off = some e := by
  unfold swap_branch
  rw [if_neg h]

theorem swap_branch_eq (e : GameEngine) (d : Direction) (off : Position) :
    e.swap_branch d d off = (e.grid.get_position e.blank_block).bind
      (fun p => (e.grid.swap p (p + off)).bind (fun g => some { e with grid := g })) := by
  unfold swap_branch
  rw [if_pos rfl]
  rfl

theorem move_blank_block_noop (e : GameEngine) (d : Direction) (bp : Position)
    (hbp : e.grid.get_position e.blank_block = some bp)
    (h : e.is_valid_position (bp + direction_to_offset d) = false ∨
      e.allow_moving = false) :
    e.move_blank_block d = some e := by
  unfold move_blank_block
  rw [hbp]
  rcases h with h | h
  · simp [h]
  · cases hv : e.is_valid_position (bp + direction_to_offset d) <;> simp [h, hv]

theorem move_blank_block_swap (e : GameEngine) (d : Direction) (bp : Position)
    (hbp : e.grid.get_position e.blank_block = some bp)
    (hv : e.is_valid_position (bp + direction_to_offset d) = true)
    (ha : e.allow_moving = true) :
    e.move_blank_block d =
      (e.grid.swap bp (bp + direction_to_offset d)).bind
        (fun g => some { e with grid := g }) := by
  unfold move_blank_block
  rw [hbp]
  cases d <;>
  · simp only [direction_to_offset] at hv ⊢
    simp [swap_branch, hbp, hv, ha, Option.bind_assoc]

/-- Cancelling a direction offset with its inverse. -/
theorem add_offset_inverse (p : Position) (d : Direction) :
    p + direction_to_offset d + direction_to_offset (inverse d) = p := by
  obtain ⟨x, y⟩ := p
  cases d <;> simp [direction_to_offset, inverse, Position.add_def]

theorem blank_index_exists (e : GameEngine) (hWF : WF e) :
    ∃ i, i < e.grid.grid.length ∧ e.grid.grid.getD i 0 = e.blank_block := by
  obtain ⟨-, -, -, -, hmem⟩ := hWF
  obtain ⟨i, hi, hb⟩ := List.getElem_of_mem hmem
  exact ⟨i, hi, by rw [getD_eq_getElem _ _ hi, hb]⟩

/-- The full effective-move characterization under well-formedness: when the
gate is open and the candidate is on the board, `_move_blank_block` swaps the
blank (at sequence index `i`) with the tile at the candidate's index `j`,
both in the sequence and in the two tiles' `position` attributes. -/
theorem move_blank_block_effective (e : GameEngine) (d : Direction) (i : Nat)
    (hWF : WF e) (hi : i < e.grid.grid.length)
    (hb : e.grid.grid.getD i 0 = e.blank_block)
    (hv : e.is_valid_position (posOfIndex e.size i + direction_to_offset d) = true)
    (ha : e.allow_moving = true) :
    ∃ j : Nat, j < e.grid.grid.length ∧ i ≠ j ∧
      posOfIndex e.size j = posOfIndex e.size i + direction_to_offset d ∧
      e.move_blank_block d = some { e with grid := { e.grid with
        grid := listSwap e.grid.grid i j
        pos := attrSwap e.grid.pos (e.grid.grid.getD i 0) (e.grid.grid.getD j 0) } } := by
  obtain ⟨hN, hw, hlen, hnd, hmem⟩ := hWF
  have hbp : e.grid.get_position e.blank_block = some (posOfIndex e.size i) :=
    Grid.get_position_eq e.grid e.size e.blank_block i hN hw hlen hnd hi hb
  obtain ⟨j, hj_idx, hjl, hjpos⟩ := to_index_spec_of_valid e _ hw hlen hv
  have hij : i ≠ j := by
    intro hEq
    rw [← hEq] at hjpos
    have hx := congrArg Position.x hjpos
    have hy := congrArg Position.y hjpos
    simp only [Position.add_def] at hx hy
    cases d <;> simp [direction_to_offset] at hx hy
  refine ⟨j, hjl, hij, hjpos, ?_⟩
  rw [move_blank_block_swap e d (posOfIndex e.size i) hbp hv ha,
    Grid.swap_eq e.grid _ _ i j (Grid.to_index_posOfIndex_self e.grid e.size i hw)
      hj_idx hi hjl]
  rfl

theorem isEffective_iff (e : GameEngine) (d : Direction) (i : Nat) (hWF : WF e)
    (hi : i < e.grid.grid.length) (hb : e.grid.grid.getD i 0 = e.blank_block) :
    e.isEffective d = (e.allow_moving &&
      e.is_valid_position (posOfIndex e.size i + direction_to_offset d)) := by
  obtain ⟨hN, hw, hlen, hnd, hmem⟩ := hWF
  unfold isEffective
  rw [Grid.get_position_eq e.grid e.size e.blank_block i hN hw hlen hnd hi hb]

theorem move_blank_block_total (e : GameEngine) (d : Direction) (hWF : WF e) :
    e.move_blank_block d = some (e.moveT d) := by
  obtain ⟨i, hi, hb⟩ := blank_index_exists e hWF
  obtain ⟨hN, hw, hlen, hnd, hmem⟩ := hWF
  have hbp : e.grid.get_position e.blank_block = some (posOfIndex e.size i) :=
    Grid.get_position_eq e.grid e.size e.blank_block i hN hw hlen hnd hi hb
  by_cases hv : e.is_valid_position (posOfIndex e.size i + direction_to_offset d) = true
  · by_cases ha : e.allow_moving = true
    · obtain ⟨j, hjl, hij, hjp, hmove⟩ :=
        move_blank_block_effective e d i ⟨hN, hw, hlen, hnd, hmem⟩ hi hb hv ha
      simp [moveT, hmove]
    · have h := move_blank_block_noop e d _ hbp (Or.inr (by simpa using ha))
      simp [moveT, h]
  · have h := move_blank_block_noop e d _ hbp (Or.inl (by simpa using hv))
    simp [moveT, h]

theorem moveT_noop (e : GameEngine) (d : Direction) (hWF : WF e)
    (h : e.isEffective d = false) : e.moveT d = e := by
  obtain ⟨i, hi, hb⟩ := blank_index_exists e hWF
  obtain ⟨hN, hw, hlen, hnd, hmem⟩ := hWF
  have hbp : e.grid.get_position e.blank_block = some (posOfIndex e.size i) :=
    Grid.get_position_eq e.grid e.size e.blank_block i hN hw hlen hnd hi hb
  rw [isEffective_iff e d i ⟨hN, hw, hlen, hnd, hmem⟩ hi hb,
    Bool.and_eq_false_iff] at h
  rcases h with h | h
  · simp [moveT, move_blank_block_noop e d _ hbp (Or.inr h)]
  · simp [moveT, move_blank_block_noop e d _ hbp (Or.inl h)]

theorem moveT_effective (e : GameEngine) (d : Direction) (i : Nat) (hWF : WF e)
    (hi : i < e.grid.grid.length) (hb : e.grid.grid.getD i 0 = e.blank_block)
    (heff : e.isEffective d = true) :
    ∃ j : Nat, j < e.grid.grid.length ∧ i ≠ j ∧
      posOfIndex e.size j = posOfIndex e.size i + direction_to_offset d ∧
      e.moveT d = { e with grid := { e.grid with
        grid := listSwap e.grid.grid i j
        pos := attrSwap e.grid.pos (e.grid.grid.getD i 0) (e.grid.grid.getD j 0) } } := by
  have h := heff
  rw [isEffective_iff e d i hWF hi hb, Bool.and_eq_true] at h
  obtain ⟨j, hjl, hij, hjp, hmove⟩ :=
    move_blank_block_effective e d i hWF hi hb h.2 h.1
  exact ⟨j, hjl, hij, hjp, by simp [moveT, hmove]⟩

theorem WF_moveT (e : GameEngine) (d : Direction) (hWF : WF e) : WF (e.moveT d) := by
  cases heff : e.isEffective d
  · rw [moveT_noop e d hWF heff]; exact hWF
  · obtain ⟨i, hi, hb⟩ := blank_index_exists e hWF
    obtain ⟨j, hjl, hij, hjp, hmove⟩ := moveT_effective e d i hWF hi hb heff
    obtain ⟨hN, hw, hlen, hnd, hmem⟩ := hWF
    rw [hmove]
    exact ⟨hN, hw, by simpa using hlen, listSwap_nodup _ _ _ hi hjl hnd,
      listSwap_mem _ _ _ hi hjl _ hmem⟩

theorem moveT_fields (e : GameEngine) (d : Direction) (hWF : WF e) :
    (e.moveT d).size = e.size ∧ (e.moveT d).blank_block = e.blank_block ∧
      (e.moveT d).correct_order = e.correct_order ∧
      (e.moveT d).allow_moving = e.allow_moving := by
  cases heff : e.isEffective d
  · rw [moveT_noop e d hWF heff]; exact ⟨rfl, rfl, rfl, rfl⟩
  · obtain ⟨i, hi, hb⟩ := blank_index_exists e hWF
    obtain ⟨j, -, -, -, hmove⟩ := moveT_effective e d i hWF hi hb heff
    rw [hmove]; exact ⟨rfl, rfl, rfl, rfl⟩

/-- An effective move is undone exactly by the inverse direction. -/
theorem moveT_undo (e : GameEngine) (d : Direction) (hWF : WF e)
    (heff : e.isEffective d = true) : (e.moveT d).moveT (inverse d) = e := by
  obtain ⟨i, hi, hb⟩ := blank_index_exists e hWF
  obtain ⟨j, hjl, hij, hjp, hmove⟩ := moveT_effective e d i hWF hi hb heff
  have hWF' : WF (e.moveT d) := WF_moveT e d hWF
  have hb' : (e.moveT d).grid.grid.getD j 0 = (e.moveT d).blank_block := by
    rw [hmove]
    show (listSwap e.grid.grid i j).getD j 0 = e.blank_block
    rw [listSwap_getD_right _ _ _ hjl, hb]
  have hj' : j < (e.moveT d).grid.grid.length := by rw [hmove]; simpa using hjl
  have hsize : (e.moveT d).size = e.size := by rw [hmove]
  have hpos' : posOfIndex (e.moveT d).size j + direction_to_offset (inverse d) =
      posOfIndex e.size i := by
    rw [hsize, hjp, add_offset_inverse]
  have ha : e.allow_moving = true := by
    have h := heff
    rw [isEffective_iff e d i hWF hi hb, Bool.and_eq_true] at h
    exact h.1
  have heff' : (e.moveT d).isEffective (inverse d) = true := by
    rw [isEffective_iff (e.moveT d) (inverse d) j hWF' hj' hb', hpos']
    have hva : e.is_valid_position (posOfIndex e.size i) = true :=
      is_valid_posOfIndex e i hWF.1 (hWF.2.2.1 ▸ hi)
    have htrans : (e.moveT d).is_valid_position (posOfIndex e.size i) =
        e.is_valid_position (posOfIndex e.size i) := by rw [hmove]; rfl
    have hall : (e.moveT d).allow_moving = e.allow_moving := by rw [hmove]
    rw [htrans, hva, hall, ha]
    rfl
  obtain ⟨j₂, hj₂l, hjj₂, hj₂p, hmove₂⟩ :=
    moveT_effective (e.moveT d) (inverse d) j hWF' hj' hb' heff'
  have hj₂i : j₂ = i := by
    apply posOfIndex_inj e.size
    rw [← hsize, hj₂p, hpos', hsize]
  subst hj₂i
  rw [hmove₂, hmove]
  dsimp only
  rw [listSwap_getD_right _ _ _ hjl, listSwap_getD_left _ _ _ hij hi,
    listSwap_undo _ _ _ hi hjl, attrSwap_invol]

/-! ## Folding moves -/

theorem applyMoves_eq_total (e : GameEngine) (ds : List Direction) (hWF : WF e) :
    e.applyMoves ds = some (e.applyMovesT ds) := by
  induction ds generalizing e with
  | nil => rfl
  | cons d ds ih =>
    show (e.move_blank_block d).bind (fun e' => e'.applyMoves ds) = _
    rw [move_blank_block_total e d hWF, Option.some_bind,
      ih (e.moveT d) (WF_moveT e d hWF)]
    rfl

theorem WF_applyMovesT (e : GameEngine) (ds : List Direction) (hWF : WF e) :
    WF (e.applyMovesT ds) := by
  induction ds generalizing e with
  | nil => exact hWF
  | cons d ds ih => exact ih (e.moveT d) (WF_moveT e d hWF)

theorem applyMovesT_fields (e : GameEngine) (ds : List Direction) (hWF : WF e) :
    (e.applyMovesT ds).size = e.size ∧
      (e.applyMovesT ds).blank_block = e.blank_block ∧
      (e.applyMovesT ds).correct_order = e.correct_order ∧
      (e.applyMovesT ds).allow_moving = e.allow_moving := by
  induction ds generalizing e with
  | nil => exact ⟨rfl, rfl, rfl, rfl⟩
  | cons d ds ih =>
    obtain ⟨h1, h2, h3, h4⟩ := ih (e.moveT d) (WF_moveT e d hWF)
    obtain ⟨g1, g2, g3, g4⟩ := moveT_fields e d hWF
    exact ⟨h1.trans g1, h2.trans g2, h3.trans g3, h4.trans g4⟩

/-- Each `moveT` either does nothing or is a legal single slide. -/
theorem moveT_step_or_eq (e : GameEngine) (d : Direction) (hWF : WF e) :
    e.moveT d = e ∨
      LegalStep e.size e.blank_block e.grid.grid (e.moveT d).grid.grid := by
  cases heff : e.isEffective d
  · exact Or.inl (moveT_noop e d hWF heff)
  · right
    obtain ⟨i, hi, hb⟩ := blank_index_exists e hWF
    obtain ⟨j, hjl, hij, hjp, hmove⟩ := moveT_effective e d i hWF hi hb heff
    exact ⟨i, j, d, hi, hjl, hb, hjp, by rw [hmove]⟩

theorem reach_applyMovesT (e : GameEngine) (ds : List Direction) (hWF : WF e) :
    Relation.ReflTransGen (LegalStep e.size e.blank_block)
      e.grid.grid (e.applyMovesT ds).grid.grid := by
  induction ds generalizing e with
  | nil => exact .refl
  | cons d ds ih =>
    have h1 := ih (e.moveT d) (WF_moveT e d hWF)
    obtain ⟨hs, hbb, -, -⟩ := moveT_fields e d hWF
    rw [hs, hbb] at h1
    show Relation.ReflTransGen _ _ ((e.moveT d).applyMovesT ds).grid.grid
    rcases moveT_step_or_eq e d hWF with hEq | hstep
    · rw [hEq] at h1 ⊢
      exact h1
    · exact .trans (.single hstep) h1

/-- Replaying the inverses of all effective moves, most recent first,
restores the starting state exactly. -/
theorem effectiveMoves_replay (e : GameEngine) (ds : List Direction) (hWF : WF e) :
    (e.applyMovesT ds).applyMovesT ((e.effectiveMoves ds).reverse.map inverse) = e := by
  induction ds generalizing e with
  | nil => rfl
  | cons d ds ih =>
    show ((e.moveT d).applyMovesT ds).applyMovesT
      ((e.effectiveMoves (d :: ds)).reverse.map inverse) = e
    cases heff : e.isEffective d
    · have hnoop := moveT_noop e d hWF heff
      rw [show e.effectiveMoves (d :: ds) = e.effectiveMoves ds by
        simp [effectiveMoves, heff], hnoop]
      exact ih e hWF
    · rw [show e.effectiveMoves (d :: ds) = d :: (e.moveT d).effectiveMoves ds by
        simp [effectiveMoves, heff]]
      rw [List.reverse_cons, List.map_append]
      show List.foldl moveT _ (_ ++ [inverse d]) = e
      rw [List.foldl_append]
      have h1 := ih (e.moveT d) (WF_moveT e d hWF)
      show ((((e.moveT d).applyMovesT ds)).applyMovesT
        (((e.moveT d).effectiveMoves ds).reverse.map inverse)).moveT (inverse d) = e
      rw [h1]
      exact moveT_undo e d hWF heff

/-! ## Shuffle loop characterization -/

theorem shuffleLoop_eq_applyMoves (rand : Nat → Fin 10) (c k : Nat) (e : GameEngine) :
    shuffleLoop rand e k c =
      e.applyMoves ((List.range' k c).map
        (fun t => move_list.getD (rand t) Direction.DOWN)) := by
  induction c generalizing k e with
  | zero => rfl
  | succ c ih =>
    rw [List.range'_succ, List.map_cons]
    show (e.move_blank_block (move_list.getD (rand k) Direction.DOWN)).bind
        (fun e' => shuffleLoop rand e' (k + 1) c) =
      (e.move_blank_block (move_list.getD (rand k) Direction.DOWN)).bind
        (fun e' => e'.applyMoves ((List.range' (k + 1) c).map
          (fun t => move_list.getD (rand t) Direction.DOWN)))
    cases e.move_blank_block (move_list.getD (rand k) Direction.DOWN) with
    | none => rfl
    | some e' => simp [ih]

/-- Well-formedness of the state at shuffle time: the engine as constructed,
with the moving gate opened by `run`. -/
theorem WF_start (N : Nat) (blank : BlockId) (blocks : List BlockId)
    (pos0 : BlockId → Position) (h2 : 2 ≤ N) (hlen : blocks.length = N * N - 1)
    (hnd : (blank :: blocks).Nodup) :
    WF ((init N blank blocks pos0).allow_moves) := by
  have hNN : 1 ≤ N * N := Nat.mul_pos (by omega) (by omega)
  refine ⟨?_, rfl, ?_, hnd, List.mem_cons_self _ _⟩
  · show 0 < N
    omega
  · show (blank :: blocks).length = N * N
    simp only [List.length_cons, hlen]
    omega

end GameEngine

theorem Grid.to_index_of_in_range (g : Grid) (p : Position)
    (hlen : g.grid.length = g.grid_width * g.grid_width) (h : g.in_range p) :
    ∃ j : Nat, g.to_index p = (j : Int) ∧ j < g.grid.length ∧
      posOfIndex g.grid_width j = p := by
  obtain ⟨x, y⟩ := p
  have hx0 : 0 ≤ x := h.1
  have hxN : x < (g.grid_width : Int) := h.2.1
  have hy0 : 0 ≤ y := h.2.2.1
  have hyN : y < (g.grid_width : Int) := h.2.2.2
  have hN : 0 < g.grid_width := by
    rcases Nat.eq_zero_or_pos g.grid_width with h0 | h0
    · rw [h0] at hxN; omega
    · exact h0
  refine ⟨x.toNat + y.toNat * g.grid_width, ?_, ?_, ?_⟩
  · unfold to_index
    push_cast [Int.toNat_of_nonneg hx0, Int.toNat_of_nonneg hy0]
    ring
  · have hx : x.toNat < g.grid_width := by omega
    have hy : y.toNat < g.grid_width := by omega
    rw [hlen]
    have h1 : x.toNat + y.toNat * g.grid_width < (y.toNat + 1) * g.grid_width := by
      rw [Nat.add_mul]; omega
    have h2 : (y.toNat + 1) * g.grid_width ≤ g.grid_width * g.grid_width :=
      Nat.mul_le_mul_right g.grid_width hy
    omega
  · have hx : x.toNat < g.grid_width := by omega
    unfold posOfIndex
    rw [Nat.add_mul_mod_self_right, Nat.mod_eq_of_lt hx,
      Nat.add_mul_div_right _ _ hN, Nat.div_eq_of_lt hx]
    simp only [Position.mk.injEq]
    constructor <;> omega

/-! ## The claims -/

/-- C1: for every game constructed from board size `N ≥ 2` and a tile list of
one blank plus `N²−1` distinct non-blank tiles, the solved-order snapshot
captured at construction equals the initial grid sequence, with the blank at
index 0; and `_is_solved` returns true if and only if the live grid sequence
equals that snapshot under exact per-index identity equality (the blank tile
included, since tiles are compared as identities). -/
theorem C1_construction_and_win_detection (N : Nat) (blank : BlockId)
    (blocks : List BlockId) (pos0 : BlockId → Position) (e' : GameEngine)
    (h2 : 2 ≤ N) (hlen : blocks.length = N * N - 1)
    (hnd : (blank :: blocks).Nodup)
    (hco : e'.correct_order = (GameEngine.init N blank blocks pos0).correct_order) :
    (GameEngine.init N blank blocks pos0).correct_order =
        (GameEngine.init N blank blocks pos0).grid.grid ∧
      (GameEngine.init N blank blocks pos0).grid.grid = blank :: blocks ∧
      (GameEngine.init N blank blocks pos0).blank_block = blank ∧
      (GameEngine.init N blank blocks pos0).grid.grid.getD 0 0 = blank ∧
      (e'.is_solved = true ↔
        e'.grid.grid = (GameEngine.init N blank blocks pos0).correct_order) := by
  refine ⟨rfl, rfl, rfl, rfl, ?_⟩
  rw [GameEngine.is_solved, decide_eq_true_eq, hco]
  exact eq_comm

theorem C1_witness :
    (2 ≤ 2 ∧ ([1, 2, 3] : List BlockId).length = 2 * 2 - 1 ∧
        ((0 : BlockId) :: [1, 2, 3]).Nodup ∧
        e2.correct_order = (GameEngine.init 2 0 [1, 2, 3] (fun _ => ⟨0, 0⟩)).correct_order) ∧
      ((GameEngine.init 2 0 [1, 2, 3] (fun _ => ⟨0, 0⟩)).correct_order =
          (GameEngine.init 2 0 [1, 2, 3] (fun _ => ⟨0, 0⟩)).grid.grid ∧
        (GameEngine.init 2 0 [1, 2, 3] (fun _ => ⟨0, 0⟩)).grid.grid = 0 :: [1, 2, 3] ∧
        (GameEngine.init 2 0 [1, 2, 3] (fun _ => ⟨0, 0⟩)).blank_block = 0 ∧
        (GameEngine.init 2 0 [1, 2, 3] (fun _ => ⟨0, 0⟩)).grid.grid.getD 0 0 = 0 ∧
        (e2.is_solved = true ↔
          e2.grid.grid = (GameEngine.init 2 0 [1, 2, 3] (fun _ => ⟨0, 0⟩)).correct_order)) :=
  ⟨⟨by omega, rfl, by decide, rfl⟩,
    C1_construction_and_win_detection 2 0 [1, 2, 3] (fun _ => ⟨0, 0⟩) e2
      (by omega) rfl (by decide) rfl⟩

/-- C2 counterexample: with the blank at `(0,0)` on a 2×2 board and the gate
open, direction `DOWN` has candidate `(0,-1)`, which is outside `[0,2)` in the
`y` axis only — so the claimed contract demands a swap — yet the code makes a
silent no-op, refuting the claim as literally stated. -/
theorem C2_counterexample : ¬ ClaimC2 := by
  intro h
  have hno : ¬ outside_both e2 ((⟨0, 0⟩ : Position) + direction_to_offset .DOWN) := by
    unfold outside_both
    decide
  have h2 := (h e2 .DOWN ⟨0, 0⟩ rfl).2 ⟨hno, rfl⟩
  have h3 := congrArg (fun o => o.map (fun x : GameEngine => x.grid.grid)) h2
  exact absurd h3 (by decide)

/-- C2 (amended): `_move_blank_block d` is a silent no-op when the candidate
position lies outside `[0, N)` in at least one axis (equivalently: the bounds
check fails) or when the moves-allowed gate is false; otherwise it swaps the
blank tile with the tile at the direction-to-offset candidate. -/
theorem C2_amended_noop_or_swap (e : GameEngine) (d : Direction) (bp : Position)
    (hbp : e.grid.get_position e.blank_block = some bp) :
    ((e.is_valid_position (bp + direction_to_offset d) = false ∨
        e.allow_moving = false) → e.move_blank_block d = some e) ∧
      (e.is_valid_position (bp + direction_to_offset d) = true ∧
          e.allow_moving = true →
        e.move_blank_block d =
          (e.grid.swap bp (bp + direction_to_offset d)).bind
            (fun g => some { e with grid := g })) ∧
      (e.is_valid_position (bp + direction_to_offset d) = false ↔
        ((bp + direction_to_offset d).x < 0 ∨
          (e.size : Int) ≤ (bp + direction_to_offset d).x ∨
          (bp + direction_to_offset d).y < 0 ∨
          (e.size : Int) ≤ (bp + direction_to_offset d).y)) := by
  refine ⟨fun h => GameEngine.move_blank_block_noop e d bp hbp h,
    fun h => GameEngine.move_blank_block_swap e d bp hbp h.1 h.2, ?_⟩
  simp only [GameEngine.is_valid_position, decide_eq_false_iff_not]
  omega

theorem C2_amended_witness :
    e2.grid.get_position e2.blank_block = some ⟨0, 0⟩ ∧
      e2.move_blank_block .UP =
        (e2.grid.swap ⟨0, 0⟩ ((⟨0, 0⟩ : Position) + direction_to_offset .UP)).bind
          (fun g => some { e2 with grid := g }) :=
  ⟨rfl, (C2_amended_noop_or_swap e2 .UP ⟨0, 0⟩ rfl).2.1 ⟨rfl, rfl⟩⟩

/-- C3: from the solved start state (construction followed by the gate
opening, which is the state `_shuffle_board` runs in), any sequence of
`_move_blank_block` calls — in particular any run of the shuffle with any
random choices — succeeds, yields a grid reachable from the solved order by
legal single blank-adjacent swaps, and is undone exactly by replaying the
inverses of the effective moves in reverse order, restoring the solved
order. -/
theorem C3_moves_reachable_and_inverse_replay (N : Nat) (blank : BlockId)
    (blocks : List BlockId) (pos0 : BlockId → Position) (ds : List Direction)
    (h2 : 2 ≤ N) (hlen : blocks.length = N * N - 1)
    (hnd : (blank :: blocks).Nodup) :
    ((GameEngine.init N blank blocks pos0).allow_moves).applyMoves ds =
        some (((GameEngine.init N blank blocks pos0).allow_moves).applyMovesT ds) ∧
      Relation.ReflTransGen (LegalStep N blank)
        ((GameEngine.init N blank blocks pos0).allow_moves).grid.grid
        ((((GameEngine.init N blank blocks pos0).allow_moves).applyMovesT ds)).grid.grid ∧
      ((((GameEngine.init N blank blocks pos0).allow_moves).applyMovesT ds)).applyMoves
          (((((GameEngine.init N blank blocks pos0).allow_moves).effectiveMoves ds)).reverse.map
            inverse) =
        some ((GameEngine.init N blank blocks pos0).allow_moves) := by
  have hWF := GameEngine.WF_start N blank blocks pos0 h2 hlen hnd
  refine ⟨GameEngine.applyMoves_eq_total _ ds hWF, ?_, ?_⟩
  · exact GameEngine.reach_applyMovesT _ ds hWF
  · rw [GameEngine.applyMoves_eq_total _ _ (GameEngine.WF_applyMovesT _ ds hWF),
      GameEngine.effectiveMoves_replay _ ds hWF]

theorem C3_witness :
    (2 ≤ 2 ∧ ([1, 2, 3] : List BlockId).length = 2 * 2 - 1 ∧
        ((0 : BlockId) :: [1, 2, 3]).Nodup) ∧
      (e2.applyMovesT [Direction.UP, Direction.LEFT]).applyMoves
          ((e2.effectiveMoves [Direction.UP, Direction.LEFT]).reverse.map inverse) =
        some e2 :=
  ⟨⟨by omega, rfl, by decide⟩,
    (C3_moves_reachable_and_inverse_replay 2 0 [1, 2, 3] (fun _ => ⟨0, 0⟩)
      [Direction.UP, Direction.LEFT] (by omega) rfl (by decide)).2.2⟩

/-- C4: the direction-to-offset table is exactly
`DOWN ↦ (0,-1), UP ↦ (0,+1), LEFT ↦ (+1,0), RIGHT ↦ (-1,0)`, and for every
direction the offset used by `_move_blank_block`'s bounds check equals the
offset used by its subsequent swap: the function coincides with the
companion `move_blank_block_spec`, which uses the table offset for both. -/
theorem C4_offset_table_and_consistency :
    (direction_to_offset .DOWN = ⟨0, -1⟩ ∧ direction_to_offset .UP = ⟨0, 1⟩ ∧
        direction_to_offset .LEFT = ⟨1, 0⟩ ∧
        direction_to_offset .RIGHT = ⟨-1, 0⟩) ∧
      ∀ (e : GameEngine) (d : Direction),
        e.move_blank_block d = e.move_blank_block_spec d := by
  refine ⟨⟨rfl, rfl, rfl, rfl⟩, fun e d => ?_⟩
  cases hbp : e.grid.get_position e.blank_block with
  | none =>
    unfold GameEngine.move_blank_block GameEngine.move_blank_block_spec
    rw [hbp]
    rfl
  | some bp =>
    by_cases hv : e.is_valid_position (bp + direction_to_offset d) = true
    · by_cases ha : e.allow_moving = true
      · rw [GameEngine.move_blank_block_swap e d bp hbp hv ha]
        unfold GameEngine.move_blank_block_spec
        rw [hbp]
        simp [hv, ha]
      · have ha' : e.allow_moving = false := by simpa using ha
        rw [GameEngine.move_blank_block_noop e d bp hbp (Or.inr ha')]
        unfold GameEngine.move_blank_block_spec
        rw [hbp]
        simp [hv, ha']
    · have hv' : e.is_valid_position (bp + direction_to_offset d) = false := by
        simpa using hv
      rw [GameEngine.move_blank_block_noop e d bp hbp (Or.inl hv')]
      unfold GameEngine.move_blank_block_spec
      rw [hbp]
      simp [hv']

/-- C5: `_shuffle_board` performs exactly 2000 independent selections from the
candidate list (which holds `DOWN` three times, `RIGHT` three times, `LEFT`
twice and `UP` twice), applying `_move_blank_block` to each selected direction
in order and mutating the grid in no other way: a run of the loop equals
folding `_move_blank_block` over the 2000 chosen directions. -/
theorem C5_shuffle_structure :
    (∀ (e : GameEngine) (rand : Nat → Fin 10),
        e.shuffle_board rand = e.applyMoves ((List.range 2000).map
          (fun k => move_list.getD (rand k) Direction.DOWN))) ∧
      move_list.length = 10 ∧
      move_list.count Direction.DOWN = 3 ∧
      move_list.count Direction.RIGHT = 3 ∧
      move_list.count Direction.LEFT = 2 ∧
      move_list.count Direction.UP = 2 := by
  refine ⟨fun e rand => ?_, by decide, by decide, by decide, by decide, by decide⟩
  rw [GameEngine.shuffle_board, GameEngine.shuffleLoop_eq_applyMoves rand 2000 0 e,
    List.range_eq_range']

/-- C6: whenever the computed neighbour of the blank is rejected by the bounds
check, or the moves-allowed gate is closed, `_move_blank_block` returns the
state completely unchanged — grid sequence and all tile position attributes —
and calling it again has no further effect. -/
theorem C6_noop_frame_idempotent (e : GameEngine) (d : Direction) (bp : Position)
    (hbp : e.grid.get_position e.blank_block = some bp)
    (h : e.is_valid_position (bp + direction_to_offset d) = false ∨
      e.allow_moving = false) :
    e.move_blank_block d = some e ∧
      (e.move_blank_block d).bind (fun x => x.move_blank_block d) = some e := by
  have h1 := GameEngine.move_blank_block_noop e d bp hbp h
  exact ⟨h1, by rw [h1, Option.some_bind, h1]⟩

theorem C6_witness :
    (e2.grid.get_position e2.blank_block = some ⟨0, 0⟩ ∧
        e2.is_valid_position ((⟨0, 0⟩ : Position) + direction_to_offset .DOWN) = false) ∧
      e2.move_blank_block .DOWN = some e2 ∧
        (e2.move_blank_block .DOWN).bind (fun x => x.move_blank_block .DOWN) = some e2 :=
  ⟨⟨rfl, rfl⟩, C6_noop_frame_idempotent e2 .DOWN ⟨0, 0⟩ rfl (Or.inl rfl)⟩

/-- C7: on a full square grid, swapping the tiles at two in-range positions
twice restores both the underlying sequence and every tile's mutable position
attribute — `swap` is its own inverse. -/
theorem C7_swap_self_inverse (g : Grid) (A B : Position)
    (hlen : g.grid.length = g.grid_width * g.grid_width)
    (hA : g.in_range A) (hB : g.in_range B) :
    (g.swap A B).bind (fun g' => g'.swap A B) = some g := by
  obtain ⟨i, hiI, hil, hip⟩ := g.to_index_of_in_range A hlen hA
  obtain ⟨j, hjI, hjl, hjp⟩ := g.to_index_of_in_range B hlen hB
  have key : ∀ G : Grid, G.grid_width = g.grid_width →
      G.grid = listSwap g.grid i j →
      G.pos = attrSwap g.pos (g.grid.getD i 0) (g.grid.getD j 0) →
      G.swap A B = some g := by
    intro G hGw hGg hGp
    have hiI' : G.to_index A = (i : Int) := by
      unfold Grid.to_index
      rw [hGw]
      exact hiI
    have hjI' : G.to_index B = (j : Int) := by
      unfold Grid.to_index
      rw [hGw]
      exact hjI
    have hil' : i < G.grid.length := by rw [hGg]; simpa using hil
    have hjl' : j < G.grid.length := by rw [hGg]; simpa using hjl
    rw [Grid.swap_eq G A B i j hiI' hjI' hil' hjl', hGg, hGp, hGw]
    by_cases hij : i = j
    · subst hij
      rw [listSwap_same, listSwap_same, attrSwap_invol]
    · rw [listSwap_getD_left _ _ _ hij hil, listSwap_getD_right _ _ _ hjl,
        listSwap_invol _ _ _ hil hjl,
        attrSwap_comm (attrSwap g.pos (g.grid.getD i 0) (g.grid.getD j 0))
          (g.grid.getD j 0) (g.grid.getD i 0),
        attrSwap_invol]
  rw [Grid.swap_eq g A B i j hiI hjI hil hjl, Option.some_bind]
  exact key _ rfl rfl rfl

theorem C7_witness :
    (e2.grid.grid.length = e2.grid.grid_width * e2.grid.grid_width ∧
        e2.grid.in_range ⟨0, 1⟩ ∧ e2.grid.in_range ⟨1, 1⟩) ∧
      (e2.grid.swap ⟨0, 1⟩ ⟨1, 1⟩).bind (fun g' => g'.swap ⟨0, 1⟩ ⟨1, 1⟩) =
        some e2.grid :=
  ⟨⟨rfl, ⟨by decide, by decide, by decide, by decide⟩,
      ⟨by decide, by decide, by decide, by decide⟩⟩,
    C7_swap_self_inverse e2.grid ⟨0, 1⟩ ⟨1, 1⟩ rfl
      ⟨by decide, by decide, by decide, by decide⟩
      ⟨by decide, by decide, by decide, by decide⟩⟩

/-- C8: on a grid of width `N` holding `N²` tiles with distinct identities,
`get_position` raises exactly when the tile is absent, and for the tile at
sequence index `i` it returns `Position(i mod N, i div N)` — the position at
which the position-to-tile lookup (`__call__`) returns that very tile. -/
theorem C8_get_position_contract (N : Nat) (g : Grid) (t : BlockId)
    (hw : g.grid_width = N) (hlen : g.grid.length = N * N)
    (hnd : g.grid.Nodup) :
    (g.get_position t = none ↔ t ∉ g.grid) ∧
      ∀ i : Nat, i < g.grid.length → g.grid.getD i 0 = t →
        g.get_position t = some (posOfIndex N i) ∧
          g.call (posOfIndex N i) = some t := by
  refine ⟨Grid.get_position_eq_none_iff g t, fun i hi hb => ?_⟩
  have hN : 0 < N := by
    rcases Nat.eq_zero_or_pos N with h0 | h0
    · rw [h0] at hlen
      simp only [Nat.mul_zero, Nat.zero_mul] at hlen
      omega
    · exact h0
  refine ⟨Grid.get_position_eq g N t i hN hw hlen hnd hi hb, ?_⟩
  rw [Grid.call_eq g _ i (hw ▸ Grid.to_index_posOfIndex_self g N i hw) hi, hb]

theorem C8_witness :
    (e2.grid.grid_width = 2 ∧ e2.grid.grid.length = 2 * 2 ∧ e2.grid.grid.Nodup) ∧
      e2.grid.get_position 3 = some (posOfIndex 2 3) ∧
        e2.grid.call (posOfIndex 2 3) = some 3 :=
  ⟨⟨rfl, rfl, by decide⟩,
    (C8_get_position_contract 2 e2.grid 3 rfl rfl (by decide)).2 3 (by decide) rfl⟩

/-- C9: every successful `swap` only reorders the same tiles within the
sequence — the multiset of stored identities is preserved, no tile is
created, duplicated or dropped — and the width is untouched.  (The lookup
operations `__call__` and `get_position` are pure readers in this embedding:
they return values and no grid.) -/
theorem C9_swap_preserves_multiset (g g' : Grid) (A B : Position)
    (h : g.swap A B = some g') :
    g'.grid.Perm g.grid ∧
      (g'.grid : Multiset BlockId) = (g.grid : Multiset BlockId) ∧
      g'.grid_width = g.grid_width := by
  unfold Grid.swap at h
  cases hi : pyResolveIndex g.grid.length (g.to_index A) with
  | none => rw [hi] at h; simp at h
  | some i =>
    cases hj : pyResolveIndex g.grid.length (g.to_index B) with
    | none => rw [hi, hj] at h; simp at h
    | some j =>
      rw [hi, hj] at h
      simp only [Option.bind_eq_bind, Option.some_bind, Option.some.injEq] at h
      have hperm : (listSwap g.grid i j).Perm g.grid :=
        listSwap_perm _ _ _ (pyResolveIndex_lt _ _ _ hi) (pyResolveIndex_lt _ _ _ hj)
      rw [← h]
      exact ⟨hperm, Multiset.coe_eq_coe.mpr hperm, rfl⟩

theorem C9_witness :
    e2.grid.swap ⟨0, 0⟩ ⟨1, 0⟩ = some g3 ∧
      g3.grid.Perm e2.grid.grid ∧
        (g3.grid : Multiset BlockId) = (e2.grid.grid : Multiset BlockId) ∧
        g3.grid_width = e2.grid.grid_width :=
  ⟨rfl, C9_swap_preserves_multiset e2.grid g3 ⟨0, 0⟩ ⟨1, 0⟩ rfl⟩

/-- C10: on a well-formed state (N² tiles, distinct, blank present — so the
blank's position is within the board), every list index `_move_blank_block`
computes — the blank's own index and, when the bounds check passes, the
candidate's index in `swap`/`_to_index`/`__call__` arithmetic — is
nonnegative and below `N²`: no negative-index wrap-around occurs and the
out-of-range error branch of sequence indexing is unreachable, so the call
returns without raising. -/
theorem C10_index_safety (e : GameEngine) (d : Direction) (bp : Position)
    (hWF : WF e) (hbp : e.grid.get_position e.blank_block = some bp) :
    (0 ≤ e.grid.to_index bp ∧
        e.grid.to_index bp < (e.grid.grid.length : Int)) ∧
      (e.is_valid_position (bp + direction_to_offset d) = true →
        0 ≤ e.grid.to_index (bp + direction_to_offset d) ∧
          e.grid.to_index (bp + direction_to_offset d) <
            (e.grid.grid.length : Int)) ∧
      (e.move_blank_block d).isSome = true := by
  obtain ⟨i, hi, hb⟩ := GameEngine.blank_index_exists e hWF
  have hWF' := hWF
  obtain ⟨hN, hw, hlen, hnd, hmem⟩ := hWF'
  have hbp' : e.grid.get_position e.blank_block = some (posOfIndex e.size i) :=
    Grid.get_position_eq e.grid e.size e.blank_block i hN hw hlen hnd hi hb
  have hbpEq : bp = posOfIndex e.size i := Option.some.inj (hbp.symm.trans hbp')
  subst hbpEq
  refine ⟨?_, ?_, ?_⟩
  · rw [Grid.to_index_posOfIndex_self e.grid e.size i hw]
    exact ⟨Int.natCast_nonneg i, by exact_mod_cast hi⟩
  · intro hv
    obtain ⟨j, hjI, hjl, hjp⟩ := GameEngine.to_index_spec_of_valid e _ hw hlen hv
    rw [hjI]
    exact ⟨Int.natCast_nonneg j, by exact_mod_cast hjl⟩
  · rw [GameEngine.move_blank_block_total e d hWF]
    rfl

theorem C10_witness :
    (WF e2 ∧ e2.grid.get_position e2.blank_block = some ⟨0, 0⟩) ∧
      (0 ≤ e2.grid.to_index ⟨0, 0⟩ ∧
          e2.grid.to_index ⟨0, 0⟩ < (e2.grid.grid.length : Int)) ∧
        (e2.is_valid_position ((⟨0, 0⟩ : Position) + direction_to_offset .UP) = true →
          0 ≤ e2.grid.to_index ((⟨0, 0⟩ : Position) + direction_to_offset .UP) ∧
            e2.grid.to_index ((⟨0, 0⟩ : Position) + direction_to_offset .UP) <
              (e2.grid.grid.length : Int)) ∧
        (e2.move_blank_block .UP).isSome = true :=
  ⟨⟨⟨by decide, rfl, rfl, by decide, by decide⟩, rfl⟩,
    C10_index_safety e2 .UP ⟨0, 0⟩ ⟨by decide, rfl, rfl, by decide, by decide⟩ rfl⟩

end SlidingPuzzle
